import Mathlib

/-!
Shallow embedding of the SublimeLinter rustc plugin (linter.py): the
diagnostic regex, the build strategy selection of Rust.run, the path
comparison Rust.is_current_file, the crate root search
Rust.locate_crate_root, and the filtering override Rust.split_match.
Strings are modelled as lists of characters; the filesystem
(canonicalization and the upward file finder) is an explicit parameter.
-/

namespace RustcLint

/-- ASCII fragment of the regex character class \d (Python re). -/
def isDigit (ch : Char) : Bool := decide (48 ≤ ch.toNat ∧ ch.toNat ≤ 57)

/-- ASCII fragment of the regex character class \s (Python re). -/
def isSpace (ch : Char) : Bool :=
  decide (ch.toNat = 32 ∨ ch.toNat = 9 ∨ ch.toNat = 10 ∨
          ch.toNat = 13 ∨ ch.toNat = 11 ∨ ch.toNat = 12)

/-- The dot of Python re without DOTALL: any character except the newline. -/
def notNL (ch : Char) : Bool := ch != '\n'

/-- Numeric value of a captured digit string. -/
def digitsToNat (l : List Char) : Nat := l.foldl (fun n ch => n * 10 + (ch.toNat - 48)) 0

/-- One greedy step of the matcher: a nonempty maximal run of characters of
class p. In the regex every such run is followed by a required character
outside the class, so the engine never backtracks into the run. -/
def takeRun (p : Char → Bool) (r : List Char) : Option (List Char × List Char) :=
  if (r.takeWhile p).isEmpty then none else some (r.takeWhile p, r.dropWhile p)

/-- Consume one expected literal character. -/
def expectChar (ch : Char) : List Char → Option (List Char)
  | [] => none
  | x :: r => if x = ch then some r else none

/-- Consume one character of class p (the single \s of the regex). -/
def expectClass (p : Char → Bool) : List Char → Option (List Char)
  | [] => none
  | x :: r => if p x then some r else none

def errorKw : List Char := "error".toList

def fatalErrorKw : List Char := "fatal error".toList

def warningKw : List Char := "warning".toList

/-- The alternation (?P<error>(error|fatal error))|(?P<warning>warning) of
Rust.regex: the three branches begin with pairwise distinct characters, so
the backtracking engine commits to the branch selected by this chain.
Returns the error group, the warning group and the remaining input. -/
def sevStep (r : List Char) : Option ((Option (List Char) × Option (List Char)) × List Char) :=
  if r.take 5 = errorKw then some ((some errorKw, none), r.drop 5)
  else if r.take 11 = fatalErrorKw then some ((some fatalErrorKw, none), r.drop 11)
  else if r.take 7 = warningKw then some ((none, some warningKw), r.drop 7)
  else none

/-- Tail of the regex after the final colon, \s+(?P<message>.+), with the
backtracking of the engine: k counts the whitespace characters still
available to \s+ (initially the maximal run). -/
def msgFrom : Nat → List Char → Option (List Char)
  | 0, _ => none
  | Nat.succ k, r =>
    match r.drop (Nat.succ k) with
    | [] => msgFrom k r
    | ch :: _ =>
      if ch = '\n' then msgFrom k r
      else some ((r.drop (Nat.succ k)).takeWhile notNL)

def msgStep (r : List Char) : Option (List Char) := msgFrom (r.takeWhile isSpace).length r

/-- The captured groups of the part of Rust.regex after the file group. -/
structure RestCap where
  lineG : List Char
  colG : List Char
  errG : Option (List Char)
  warnG : Option (List Char)
  msg : List Char
deriving DecidableEq, Repr

/-- Deterministic remainder of Rust.regex after the lazily chosen file group
and its colon: (?P<line>\d+):(?P<col>\d+):\s+\d+:\d+\s followed by the
severity alternation, a colon, and \s+(?P<message>.+). Each greedy run is
followed by a required character outside its class. -/
def parseRest (r0 : List Char) : Option RestCap :=
  (takeRun isDigit r0).bind fun pl =>
  (expectChar ':' pl.2).bind fun r2 =>
  (takeRun isDigit r2).bind fun pc =>
  (expectChar ':' pc.2).bind fun r4 =>
  (takeRun isSpace r4).bind fun pw =>
  (takeRun isDigit pw.2).bind fun pe =>
  (expectChar ':' pe.2).bind fun r7 =>
  (takeRun isDigit r7).bind fun pf =>
  (expectClass isSpace pf.2).bind fun r9 =>
  (sevStep r9).bind fun ps =>
  (expectChar ':' ps.2).bind fun r11 =>
  (msgStep r11).map fun message =>
    ⟨pl.1, pc.1, ps.1.1, ps.1.2, message⟩

/-- The captured groups of Rust.regex on one matched line. -/
structure RustMatch where
  file : List Char
  lineG : List Char
  colG : List Char
  errG : Option (List Char)
  warnG : Option (List Char)
  message : List Char
deriving DecidableEq, Repr

/-- Attempt the deterministic remainder right after the current candidate
file group: it must be followed by a colon. -/
def tryHere (rest : List Char) : Option RestCap :=
  match rest with
  | [] => none
  | x :: r2 => if x = ':' then parseRest r2 else none

/-- Lazy file group (?P<file>.+?): the shortest nonempty prefix of
non-newline characters followed by a colon after which the deterministic
remainder matches; acc holds the reversed prefix read so far. -/
def matchFrom (acc : List Char) : List Char → Option RustMatch
  | [] => none
  | ch :: rest =>
    if ch = '\n' then none
    else
      match tryHere rest with
      | some cap => some ⟨(ch :: acc).reverse, cap.lineG, cap.colG, cap.errG, cap.warnG, cap.msg⟩
      | none => matchFrom (ch :: acc) rest

/-- Embedding of Rust.regex applied with re.match to one line of output. -/
def rustcRegexMatch (s : List Char) : Option RustMatch := matchFrom [] s

/-! ## Path model: posixpath.join, dirname, realpath over an abstract canonicalizer -/

/-- os.path.isabs on posix: the path begins with a slash. -/
def strAbs (p : List Char) : Bool :=
  match p with
  | [] => false
  | ch :: _ => ch == '/'

/-- The path ends with a slash (the join special case of posixpath). -/
def endsSlash (p : List Char) : Bool := p.getLast? == some '/'

/-- posixpath.join with two arguments: an absolute second argument discards
the first; otherwise the parts are glued with a slash unless the first is
empty or already ends in one. -/
def pjoin (a b : List Char) : List Char :=
  if strAbs b then b
  else if a.isEmpty || endsSlash a then a ++ b
  else a ++ '/' :: b

/-- Strip trailing slashes (the tail step of posixpath.dirname). -/
def rstripSlash (l : List Char) : List Char := (l.reverse.dropWhile (fun ch => ch == '/')).reverse

/-- posixpath.dirname: everything up to and including the last slash, then
trailing slashes stripped unless the head is all slashes. -/
def dirname (p : List Char) : List Char :=
  let head := (p.reverse.dropWhile (fun ch => ch != '/')).reverse
  if !head.isEmpty && !(head.all (fun ch => ch == '/')) then rstripSlash head else head

/-- The filesystem as seen by the plugin: canon is the canonicalization that
os.path.realpath performs on an already absolute path (symlinks and dot
segments); present records which files exist. os.path.realpath never
consults present: with its default non-strict behaviour a missing file is
canonicalized all the same. -/
structure FileSystem where
  canon : List Char → List Char
  present : List Char → Bool

/-- os.path.realpath: a relative argument is first interpreted against the
working directory of the calling process, then canonicalized. -/
def realpath (fs : FileSystem) (cwd p : List Char) : List Char :=
  fs.canon (pjoin cwd p)

/-- Rust.is_current_file: join the matched path onto the working directory
of the build (absolute matched paths discard it), canonicalize both sides
with os.path.realpath and compare byte for byte. -/
def is_current_file (fs : FileSystem) (cwd filename working_dir matched_file : List Char) : Bool :=
  let abs_matched_file := pjoin working_dir matched_file
  realpath fs cwd filename == realpath fs cwd abs_matched_file

/-- Resolution of a reported path as the spec words it: taken as is when
absolute, joined onto the working directory when relative. -/
def resolvedReported (working_dir reported : List Char) : List Char :=
  if strAbs reported then reported else pjoin working_dir reported

/-! ## Strategy selection: Rust.run and Rust.locate_crate_root -/

/-- The view settings consulted by run and locate_crate_root. -/
structure Settings where
  useCargo : Bool
  useCrateRoot : Bool
  crateRoot : Option (List Char)
deriving DecidableEq

/-- Python truthiness of an optional string: None and the empty string are
falsy. -/
def truthy : Option (List Char) → Bool
  | none => false
  | some s => !s.isEmpty

def cargoTomlName : List Char := "Cargo.toml".toList

def mainRsName : List Char := "main.rs".toList

def libRsName : List Char := "lib.rs".toList

/-- Rust.locate_crate_root: the crate-root setting if truthy, else the
upward search for main.rs, else the upward search for lib.rs. ff is the
external collaborator util.find_file. -/
def locate_crate_root (ff : List Char → List Char → Option (List Char))
    (st : Settings) (filename : List Char) : Option (List Char) :=
  let c0 := st.crateRoot
  let c1 := if truthy c0 then c0 else ff (dirname filename) mainRsName
  if truthy c1 then c1 else ff (dirname filename) libRsName

/-- The crate root locator as the spec words it: a set and nonempty
override is returned unconditionally, else the main entry is searched,
else the library entry, else nothing. -/
def locateSpec (ff : List Char → List Char → Option (List Char))
    (ovr : Option (List Char)) (startDir : List Char) : Option (List Char) :=
  match ovr with
  | some s => if s.isEmpty then locateConvention ff startDir else some s
  | none => locateConvention ff startDir
where
  locateConvention (ff : List Char → List Char → Option (List Char)) (startDir : List Char) :
      Option (List Char) :=
    match ff startDir mainRsName with
    | some p => some p
    | none => ff startDir libRsName

/-- The three build strategies, carrying the file that fixes the working
directory of the build. -/
inductive BuildStrategy where
  | manifestBuild : List Char → BuildStrategy
  | entryPointBuild : List Char → BuildStrategy
  | singleFileBuild : BuildStrategy
deriving DecidableEq, Repr

/-- The instance state Rust.run leaves behind for split_match, together
with the strategy of the command it returned. use_cargo and
use_crate_root are copied from the settings; cargo_config is assigned
exactly when use-cargo is set (the find_file result, found or not);
crate_root exactly when the cargo branch did not return and
use-crate-root is set. -/
structure RunResult where
  use_cargo : Bool
  use_crate_root : Bool
  cargo_config : Option (List Char)
  crate_root : Option (List Char)
  strategy : BuildStrategy
deriving DecidableEq, Repr

/-- The part of Rust.run after the cargo branch declined: try the crate
root, else the temp file build. -/
def runSelectRest (ff : List Char → List Char → Option (List Char))
    (st : Settings) (filename : List Char) (cfg : Option (List Char)) : RunResult :=
  if st.useCrateRoot then
    match locate_crate_root ff st filename with
    | some r =>
      if r.isEmpty then ⟨st.useCargo, st.useCrateRoot, cfg, some r, .singleFileBuild⟩
      else ⟨st.useCargo, st.useCrateRoot, cfg, some r, .entryPointBuild r⟩
    | none => ⟨st.useCargo, st.useCrateRoot, cfg, none, .singleFileBuild⟩
  else ⟨st.useCargo, st.useCrateRoot, cfg, none, .singleFileBuild⟩

/-- Rust.run on a fresh instance: cargo build when use-cargo is set and a
manifest is found, else the crate root build when use-crate-root is set
and a root is located, else the temp file build of the single file. -/
def runSelect (ff : List Char → List Char → Option (List Char))
    (st : Settings) (filename : List Char) : RunResult :=
  if st.useCargo then
    match ff (dirname filename) cargoTomlName with
    | some c =>
      if c.isEmpty then runSelectRest ff st filename (some c)
      else ⟨st.useCargo, st.useCrateRoot, some c, none, .manifestBuild c⟩
    | none => runSelectRest ff st filename none
  else runSelectRest ff st filename none

/-! ## Rust.split_match -/

/-- Outcome of one split_match call: the (possibly dropped) match handed to
the base class, or the TypeError that os.path.dirname raises on None. -/
inductive SplitOutcome where
  | result : Option RustMatch → SplitOutcome
  | typeError : SplitOutcome
deriving DecidableEq, Repr

/-- Rust.split_match: a match for another file than the edited one is
replaced by None before the base class splits it. The working directory
is the directory of Cargo.toml when use-cargo is set, else of the crate
root when use-crate-root is set; with neither flag the match passes
through unexamined. os.path.dirname(None) raises TypeError. -/
def split_match (rr : RunResult) (fs : FileSystem) (cwd filename : List Char)
    (m : Option RustMatch) : SplitOutcome :=
  match m with
  | none => .result none
  | some mt =>
    if mt.file.isEmpty then .result (some mt)
    else if rr.use_cargo then
      match rr.cargo_config with
      | none => .typeError
      | some cfg =>
        if is_current_file fs cwd filename (dirname cfg) mt.file then .result (some mt)
        else .result none
    else if rr.use_crate_root then
      match rr.crate_root with
      | none => .typeError
      | some cr =>
        if is_current_file fs cwd filename (dirname cr) mt.file then .result (some mt)
        else .result none
    else .result (some mt)

/-- The three possible fates of a parsed match in split_match. -/
inductive Decision where
  | kept
  | dropped
  | errored
deriving DecidableEq, Repr

def outcomeKind : SplitOutcome → Decision
  | .result (some _) => .kept
  | .result none => .dropped
  | .typeError => .errored

/-- The structural shape the spec describes for a diagnostic line:
path, colon, line, colon, column, colon, whitespace, the duplicated
end line and end column pair, one whitespace, a severity keyword out of
error, fatal error and warning, a colon, whitespace, and a nonempty
message. Stated declaratively as an existential decomposition of the
line. -/
def DiagShape (s : List Char) : Prop :=
  ∃ f l c ws1 el ec wc sev ws2 msg,
    s = f ++ ':' :: (l ++ ':' :: (c ++ ':' ::
      (ws1 ++ (el ++ ':' :: (ec ++ wc :: (sev ++ ':' :: (ws2 ++ msg))))))) ∧
    f ≠ [] ∧
    l ≠ [] ∧ (∀ x ∈ l, isDigit x = true) ∧
    c ≠ [] ∧ (∀ x ∈ c, isDigit x = true) ∧
    ws1 ≠ [] ∧ (∀ x ∈ ws1, isSpace x = true) ∧
    el ≠ [] ∧ (∀ x ∈ el, isDigit x = true) ∧
    ec ≠ [] ∧ (∀ x ∈ ec, isDigit x = true) ∧
    isSpace wc = true ∧
    (sev = errorKw ∨ sev = fatalErrorKw ∨ sev = warningKw) ∧
    ws2 ≠ [] ∧ (∀ x ∈ ws2, isSpace x = true) ∧
    msg ≠ []

/-! ## Fixtures for witnesses and counterexamples -/

/-- Identity canonicalizer over a filesystem where every file exists. -/
def fsId : FileSystem := ⟨fun p => p, fun _ => true⟩

/-- Identity canonicalizer over a filesystem where no file exists. -/
def fsGone : FileSystem := ⟨fun p => p, fun _ => false⟩

/-- A file finder that locates a manifest, a main entry and a library
entry for every start directory. -/
def ffBoth : List Char → List Char → Option (List Char) := fun _ n =>
  if n = cargoTomlName then some "/proj/Cargo.toml".toList
  else if n = mainRsName then some "/proj/src/main.rs".toList
  else if n = libRsName then some "/proj/src/lib.rs".toList
  else none

/-- A file finder that locates nothing. -/
def ffNone : List Char → List Char → Option (List Char) := fun _ _ => none

def fn0 : List Char := "/proj/src/foo.rs".toList

def cwd0 : List Char := "/sublime".toList

def stBothFlags : Settings := ⟨true, true, none⟩

def stCargoOnly : Settings := ⟨true, false, none⟩

def stRootOnly : Settings := ⟨false, true, none⟩

def stNoFlags : Settings := ⟨false, false, none⟩

def line0 : List Char := "src/foo.rs:3:5: 3:10 error: mismatched types".toList

def mtSelf : RustMatch :=
  ⟨"src/foo.rs".toList, "3".toList, "5".toList, some errorKw, none, "mismatched types".toList⟩

def otherLine : List Char := "other.rs:1:1: 1:2 error: boom".toList

def mtOther : RustMatch :=
  ⟨"other.rs".toList, "1".toList, "1".toList, some errorKw, none, "boom".toList⟩

def mtWarnSelf : RustMatch :=
  ⟨"src/foo.rs".toList, "9".toList, "1".toList, none, some warningKw, "unused".toList⟩

def zeroLine : List Char := "x.rs:0:0: 0:0 error: m".toList

theorem ffBoth_nonempty : ∀ d n p, ffBoth d n = some p → p ≠ [] := by
  intro d n p h
  unfold ffBoth at h
  split_ifs at h <;>
    first
      | exact Option.noConfusion h
      | (simp only [Option.some.injEq] at h; exact h ▸ (by decide))

/-! ## Path lemmas -/

theorem strAbs_cons (p : List Char) : strAbs p = true ↔ ∃ t, p = '/' :: t := by
  cases p with
  | nil => simp [strAbs]
  | cons ch t =>
    simp only [strAbs, beq_iff_eq]
    constructor
    · intro h; exact ⟨t, by rw [h]⟩
    · rintro ⟨t2, h⟩; cases h; rfl

theorem pjoin_abs_right {b : List Char} (a : List Char) (h : strAbs b = true) :
    pjoin a b = b := by
  unfold pjoin
  simp [h]

theorem strAbs_pjoin {a : List Char} (b : List Char) (h : strAbs a = true) :
    strAbs (pjoin a b) = true := by
  obtain ⟨t, rfl⟩ := (strAbs_cons a).mp h
  unfold pjoin
  split
  · assumption
  · split <;> simp [strAbs, List.cons_append]

theorem pjoin_absorb {a : List Char} (b : List Char) (h : strAbs a = true) :
    pjoin a (pjoin a b) = pjoin a b :=
  pjoin_abs_right a (strAbs_pjoin b h)

theorem resolvedReported_eq_pjoin (wd m : List Char) :
    resolvedReported wd m = pjoin wd m := by
  unfold resolvedReported
  split
  · exact (pjoin_abs_right wd (by assumption)).symm
  · rfl

/-! ## Claims C4, C7, C9, C10 -/

/-- Claim C4 (amended): for an absolute working directory and an absolute
edited file path, is_current_file returns true iff the canonical form of
the reported path (taken as is when absolute, joined onto the working
directory when relative) is byte-equal to the canonical form of the
edited file, and the result is the same for every working directory of
the calling process. For a relative working directory the result does
depend on the process working directory; see the counterexample. -/
theorem is_current_file_canonical_eq (fs : FileSystem) (cwd cwd2 fn wd m : List Char)
    (hwd : strAbs wd = true) (hfn : strAbs fn = true) :
    (is_current_file fs cwd fn wd m = true ↔
      fs.canon (resolvedReported wd m) = fs.canon fn)
  ∧ is_current_file fs cwd fn wd m = is_current_file fs cwd2 fn wd m := by
  have h1 : pjoin cwd fn = fn := pjoin_abs_right cwd hfn
  have h1b : pjoin cwd2 fn = fn := pjoin_abs_right cwd2 hfn
  have h2 : pjoin cwd (pjoin wd m) = pjoin wd m := pjoin_abs_right cwd (strAbs_pjoin m hwd)
  have h2b : pjoin cwd2 (pjoin wd m) = pjoin wd m := pjoin_abs_right cwd2 (strAbs_pjoin m hwd)
  constructor
  · simp only [is_current_file, realpath, resolvedReported_eq_pjoin, h1, h2, beq_iff_eq]
    exact eq_comm
  · simp only [is_current_file, realpath, h1, h1b, h2, h2b]

/-- Witness for C4 at a concrete absolute project layout. -/
theorem is_current_file_canonical_eq_witness :
    (is_current_file fsId cwd0 fn0 "/proj".toList "src/foo.rs".toList = true ↔
      fsId.canon (resolvedReported "/proj".toList "src/foo.rs".toList) = fsId.canon fn0)
  ∧ is_current_file fsId cwd0 fn0 "/proj".toList "src/foo.rs".toList =
      is_current_file fsId "/other".toList fn0 "/proj".toList "src/foo.rs".toList :=
  is_current_file_canonical_eq fsId cwd0 "/other".toList fn0 "/proj".toList "src/foo.rs".toList
    (by decide) (by decide)

/-- Counterexample for C4 as stated: with the relative working directory a
and the reported path b, the very same call answers true under one
process working directory and false under another. -/
theorem is_current_file_cwd_dependence_cex :
    is_current_file fsId "/".toList "/a/b".toList "a".toList "b".toList = true
  ∧ is_current_file fsId "/x".toList "/a/b".toList "a".toList "b".toList = false := by
  decide

/-- Claim C7 (amended): for an absolute working directory the comparison
gives the same answer on a reported path and on that path already joined
onto the working directory. For a relative working directory this fails;
see the counterexample. -/
theorem path_equivalence_abs_wd (fs : FileSystem) (cwd fn wd rel : List Char)
    (hwd : strAbs wd = true) :
    is_current_file fs cwd fn wd rel = is_current_file fs cwd fn wd (pjoin wd rel) := by
  simp only [is_current_file, realpath, pjoin_absorb rel hwd]

/-- Witness for C7 at a concrete absolute working directory. -/
theorem path_equivalence_abs_wd_witness :
    is_current_file fsId cwd0 fn0 "/proj".toList "src/foo.rs".toList =
      is_current_file fsId cwd0 fn0 "/proj".toList (pjoin "/proj".toList "src/foo.rs".toList) :=
  path_equivalence_abs_wd fsId cwd0 fn0 "/proj".toList "src/foo.rs".toList (by decide)

/-- Counterexample for C7 as stated: with the relative working directory a,
joining first changes the answer, because the join is applied twice. -/
theorem path_equivalence_relative_wd_cex :
    is_current_file fsId "/".toList "/a/b".toList "a".toList "b".toList = true
  ∧ is_current_file fsId "/".toList "/a/b".toList "a".toList (pjoin "a".toList "b".toList) = false := by
  decide

/-- Claim C9 (amended): os.path.realpath in its default non-strict form
never fails, so the comparison never raises; its result is a total
function of the canonicalizer alone and ignores which files exist, so a
vanished file is not forced to a non-match. -/
theorem is_current_file_ignores_existence (fs1 fs2 : FileSystem) (cwd fn wd m : List Char)
    (h : fs1.canon = fs2.canon) :
    is_current_file fs1 cwd fn wd m = is_current_file fs2 cwd fn wd m := by
  simp only [is_current_file, realpath, h]

/-- Witness for C9: a filesystem with every file present and one with none
share a canonicalizer and get identical comparisons. -/
theorem is_current_file_ignores_existence_witness :
    is_current_file fsId cwd0 fn0 "/proj".toList "src/foo.rs".toList =
      is_current_file fsGone cwd0 fn0 "/proj".toList "src/foo.rs".toList :=
  is_current_file_ignores_existence fsId fsGone cwd0 fn0 "/proj".toList "src/foo.rs".toList rfl

/-- Counterexample for C9 as stated: the edited file has vanished (no file
exists in fsGone), yet the comparison returns true, not false. -/
theorem vanished_file_matches_cex :
    fsGone.present fn0 = false
  ∧ is_current_file fsGone cwd0 fn0 "/proj".toList "src/foo.rs".toList = true := by
  decide

/-- Claim C10: the keep, drop or error fate of a parsed match in
split_match is a function of the reported file group alone, for fixed run
state and filesystem: two matches with equal file groups share their
fate whatever their line, column, severity or message. -/
theorem split_decision_depends_only_on_file (rr : RunResult) (fs : FileSystem)
    (cwd fn : List Char) (m1 m2 : RustMatch) (h : m1.file = m2.file) :
    outcomeKind (split_match rr fs cwd fn (some m1)) =
      outcomeKind (split_match rr fs cwd fn (some m2)) := by
  obtain ⟨uc, ucr, cfg, cr, strat⟩ := rr
  simp only [split_match, h]
  cases uc <;> cases ucr <;> cases cfg <;> cases cr <;> dsimp only <;>
    split_ifs <;> rfl

/-! ## Claims C2 and C5: strategy selection and crate root order -/

theorem runSelectRest_entry (ff : List Char → List Char → Option (List Char))
    (st : Settings) (fn : List Char) (cfg : Option (List Char)) (r : List Char)
    (h1 : st.useCrateRoot = true) (h2 : locate_crate_root ff st fn = some r) (h3 : r ≠ []) :
    runSelectRest ff st fn cfg =
      ⟨st.useCargo, st.useCrateRoot, cfg, some r, .entryPointBuild r⟩ := by
  have : r.isEmpty = false := by
    cases r with
    | nil => exact absurd rfl h3
    | cons a t => rfl
  simp [runSelectRest, h1, h2, this]

theorem runSelectRest_single (ff : List Char → List Char → Option (List Char))
    (st : Settings) (fn : List Char) (cfg : Option (List Char))
    (h : st.useCrateRoot = false ∨ truthy (locate_crate_root ff st fn) = false) :
    (runSelectRest ff st fn cfg).strategy = .singleFileBuild := by
  rcases h with h | h
  · simp [runSelectRest, h]
  · by_cases hr : st.useCrateRoot
    · cases hl : locate_crate_root ff st fn with
      | none => simp [runSelectRest, hr, hl]
      | some r =>
        rw [hl] at h
        have h2 : r.isEmpty = true := by
          cases he : r.isEmpty
          · rw [show truthy (some r) = !r.isEmpty from rfl, he] at h
            exact absurd h (by decide)
          · rfl
        simp [runSelectRest, hr, hl, h2]
    · simp [runSelectRest, hr]

theorem runSelect_decline (ff : List Char → List Char → Option (List Char))
    (st : Settings) (fn : List Char)
    (h : st.useCargo = false ∨ truthy (ff (dirname fn) cargoTomlName) = false) :
    runSelect ff st fn =
      runSelectRest ff st fn (if st.useCargo then ff (dirname fn) cargoTomlName else none) := by
  rcases h with h | h
  · simp [runSelect, h]
  · by_cases hc : st.useCargo
    · cases hf : ff (dirname fn) cargoTomlName with
      | none => simp [runSelect, hc, hf]
      | some c =>
        rw [hf] at h
        have h2 : c.isEmpty = true := by
          cases he : c.isEmpty
          · rw [show truthy (some c) = !c.isEmpty from rfl, he] at h
            exact absurd h (by decide)
          · rfl
        simp [runSelect, hc, hf, h2]
    · simp [runSelect, hc]

/-- Claim C2: the strategy precedence of run. With use-cargo set and a
nonempty manifest path found, the cargo build is chosen; else with
use-crate-root set and a nonempty root located, the crate root build;
else the single file build. In particular, with both flags set and both
discoverable the manifest build wins and the entry point build is never
selected. -/
theorem strategy_selection_precedence (ff : List Char → List Char → Option (List Char))
    (st : Settings) (fn : List Char) :
    (∀ c, st.useCargo = true → ff (dirname fn) cargoTomlName = some c → c ≠ [] →
      (runSelect ff st fn).strategy = .manifestBuild c)
  ∧ ((st.useCargo = false ∨ truthy (ff (dirname fn) cargoTomlName) = false) →
      ∀ r, st.useCrateRoot = true → locate_crate_root ff st fn = some r → r ≠ [] →
      (runSelect ff st fn).strategy = .entryPointBuild r)
  ∧ ((st.useCargo = false ∨ truthy (ff (dirname fn) cargoTomlName) = false) →
      (st.useCrateRoot = false ∨ truthy (locate_crate_root ff st fn) = false) →
      (runSelect ff st fn).strategy = .singleFileBuild)
  ∧ (∀ c r, st.useCargo = true → st.useCrateRoot = true →
      ff (dirname fn) cargoTomlName = some c → c ≠ [] →
      locate_crate_root ff st fn = some r → r ≠ [] →
      (runSelect ff st fn).strategy = .manifestBuild c ∧
        ∀ r2, (runSelect ff st fn).strategy ≠ .entryPointBuild r2) := by
  have manifest : ∀ c, st.useCargo = true → ff (dirname fn) cargoTomlName = some c → c ≠ [] →
      (runSelect ff st fn).strategy = .manifestBuild c := by
    intro c hc hf hne
    have : c.isEmpty = false := by
      cases c with
      | nil => exact absurd rfl hne
      | cons a t => rfl
    simp [runSelect, hc, hf, this]
  refine ⟨manifest, ?_, ?_, ?_⟩
  · intro h r hr hl hne
    rw [runSelect_decline ff st fn h, runSelectRest_entry ff st fn _ r hr hl hne]
  · intro h h2
    rw [runSelect_decline ff st fn h]
    exact runSelectRest_single ff st fn _ h2
  · intro c r hc hr hf hcne hl hrne
    refine ⟨manifest c hc hf hcne, ?_⟩
    intro r2
    rw [manifest c hc hf hcne]
    intro hcontr
    exact BuildStrategy.noConfusion hcontr

/-- Witness for C2: both flags set, manifest and crate root both
discoverable, and the manifest build is selected. -/
theorem strategy_selection_precedence_witness :
    (runSelect ffBoth stBothFlags fn0).strategy = .manifestBuild "/proj/Cargo.toml".toList :=
  (strategy_selection_precedence ffBoth stBothFlags fn0).1 "/proj/Cargo.toml".toList rfl
    (by decide) (by decide)

/-- Claim C5: locate_crate_root agrees with the fixed spec order override,
then main entry, then library entry, then nothing (for a finder that
returns nonempty paths); a set nonempty override is returned for every
finder, hence with no existence check; and with no override a found main
entry is returned whatever the library search would say. -/
theorem locate_crate_root_order (ff : List Char → List Char → Option (List Char))
    (st : Settings) (fn : List Char)
    (hff : ∀ d n p, ff d n = some p → p ≠ []) :
    locate_crate_root ff st fn = locateSpec ff st.crateRoot (dirname fn)
  ∧ (∀ s, st.crateRoot = some s → s ≠ [] → locate_crate_root ff st fn = some s)
  ∧ (st.crateRoot = none → ∀ p, ff (dirname fn) mainRsName = some p →
      locate_crate_root ff st fn = some p) := by
  have conv : ∀ h : truthy st.crateRoot = false,
      locate_crate_root ff st fn = locateSpec.locateConvention ff (dirname fn) := by
    intro h
    simp only [locate_crate_root, locateSpec.locateConvention, h, Bool.false_eq_true, if_false]
    cases hm : ff (dirname fn) mainRsName with
    | none => simp [truthy]
    | some p =>
      have hne : p.isEmpty = false := by
        have := hff _ _ _ hm
        cases p with
        | nil => exact absurd rfl this
        | cons a t => rfl
      simp [truthy, hne]
  refine ⟨?_, ?_, ?_⟩
  · cases hcr : st.crateRoot with
    | none =>
      rw [conv (by rw [hcr]; rfl)]
      simp [locateSpec]
    | some s =>
      cases s with
      | nil =>
        rw [conv (by rw [hcr]; rfl)]
        simp [locateSpec]
      | cons a t =>
        simp only [locate_crate_root, hcr, locateSpec]
        simp [truthy]
  · intro s hcr hne
    have hne2 : s.isEmpty = false := by
      cases s with
      | nil => exact absurd rfl hne
      | cons a t => rfl
    simp only [locate_crate_root, hcr]
    simp [truthy, hne2]
  · intro hcr p hm
    have h0 : truthy st.crateRoot = false := by rw [hcr]; rfl
    rw [conv h0]
    unfold locateSpec.locateConvention
    rw [hm]

/-- Witness for C5: with no override and both entry files present upward,
the main entry is returned. -/
theorem locate_crate_root_order_witness :
    locate_crate_root ffBoth stRootOnly fn0 = some "/proj/src/main.rs".toList :=
  (locate_crate_root_order ffBoth stRootOnly fn0 ffBoth_nonempty).2.2 rfl
    "/proj/src/main.rs".toList (by decide)

/-! ## Claims C1 and C6: filtering under each strategy, and the fallback crash -/

theorem append_singleton_not_empty (l : List Char) (x : Char) : (l ++ [x]).isEmpty = false := by
  cases l <;> rfl

theorem matchFrom_file_not_empty : ∀ (r acc : List Char) (m : RustMatch),
    matchFrom acc r = some m → m.file.isEmpty = false := by
  intro r
  induction r with
  | nil =>
    intro acc m h
    exact Option.noConfusion h
  | cons ch rest ih =>
    intro acc m h
    simp only [matchFrom] at h
    by_cases hnl : ch = '\n'
    · rw [if_pos hnl] at h
      exact Option.noConfusion h
    · rw [if_neg hnl] at h
      cases htry : tryHere rest with
      | some cap =>
        rw [htry] at h
        have hmeq := Option.some.inj h
        rw [← hmeq, List.reverse_cons]
        exact append_singleton_not_empty acc.reverse ch
      | none =>
        rw [htry] at h
        exact ih (ch :: acc) m h

theorem runSelectRest_state (ff : List Char → List Char → Option (List Char))
    (st : Settings) (fn : List Char) (cfg : Option (List Char)) :
    (∀ c, (runSelectRest ff st fn cfg).strategy ≠ .manifestBuild c)
  ∧ (runSelectRest ff st fn cfg).use_cargo = st.useCargo
  ∧ (runSelectRest ff st fn cfg).use_crate_root = st.useCrateRoot
  ∧ (runSelectRest ff st fn cfg).cargo_config = cfg
  ∧ (∀ r, (runSelectRest ff st fn cfg).strategy = .entryPointBuild r →
      (runSelectRest ff st fn cfg).crate_root = some r) := by
  by_cases hr : st.useCrateRoot
  · cases hl : locate_crate_root ff st fn with
    | none =>
      simp [runSelectRest, hr, hl]
    | some root =>
      by_cases he : root.isEmpty
      · simp [runSelectRest, hr, hl, he]
      · simp only [Bool.not_eq_true] at he
        simp only [runSelectRest, hr, if_true, hl, he, Bool.false_eq_true, if_false]
        refine ⟨by intro c hc; exact BuildStrategy.noConfusion hc, trivial, trivial, trivial, ?_⟩
        intro r h
        have := BuildStrategy.entryPointBuild.inj h
        rw [this]
  · simp [runSelectRest, hr]

theorem runSelect_manifest_state (ff : List Char → List Char → Option (List Char))
    (st : Settings) (fn : List Char) (c : List Char)
    (h : (runSelect ff st fn).strategy = .manifestBuild c) :
    (runSelect ff st fn).use_cargo = true ∧ (runSelect ff st fn).cargo_config = some c := by
  by_cases hc : st.useCargo
  · cases hf : ff (dirname fn) cargoTomlName with
    | none =>
      rw [show runSelect ff st fn = runSelectRest ff st fn none by simp [runSelect, hc, hf]] at h ⊢
      exact absurd h ((runSelectRest_state ff st fn none).1 c)
    | some c0 =>
      by_cases he : c0.isEmpty
      · rw [show runSelect ff st fn = runSelectRest ff st fn (some c0) by
          simp [runSelect, hc, hf, he]] at h ⊢
        exact absurd h ((runSelectRest_state ff st fn (some c0)).1 c)
      · simp only [Bool.not_eq_true] at he
        rw [show runSelect ff st fn =
            ⟨st.useCargo, st.useCrateRoot, some c0, none, .manifestBuild c0⟩ by
          simp [runSelect, hc, hf, he]] at h ⊢
        have := BuildStrategy.manifestBuild.inj h
        rw [← this]
        exact ⟨hc, rfl⟩
  · rw [show runSelect ff st fn = runSelectRest ff st fn none by simp [runSelect, hc]] at h ⊢
    exact absurd h ((runSelectRest_state ff st fn none).1 c)

theorem runSelect_entry_state (ff : List Char → List Char → Option (List Char))
    (st : Settings) (fn : List Char) (r : List Char)
    (hcargo : st.useCargo = false)
    (h : (runSelect ff st fn).strategy = .entryPointBuild r) :
    (runSelect ff st fn).use_cargo = false
  ∧ (runSelect ff st fn).use_crate_root = true
  ∧ (runSelect ff st fn).crate_root = some r := by
  rw [show runSelect ff st fn = runSelectRest ff st fn none by simp [runSelect, hcargo]] at h ⊢
  obtain ⟨hnm, huc, hucr, hcfg, hroot⟩ := runSelectRest_state ff st fn none
  refine ⟨huc.trans hcargo, ?_, hroot r h⟩
  by_cases hr : st.useCrateRoot
  · exact hucr.trans hr
  · exfalso
    rw [show runSelectRest ff st fn none =
        ⟨st.useCargo, st.useCrateRoot, none, none, .singleFileBuild⟩ by
      simp [runSelectRest, hr]] at h
    exact BuildStrategy.noConfusion h

/-- Claim C1 (amended): every diagnostic that survives split_match under
the cargo strategy is verified by is_current_file against the directory
of the manifest, and likewise under the crate root strategy (reached with
use-cargo off) against the directory of the root; diagnostics failing the
comparison are dropped. Under the single file build with both flags off
no defensive verification is performed at all (see the counterexample),
and with use-cargo on but no manifest found split_match raises instead
(see C6). -/
theorem split_match_path_filter (ff : List Char → List Char → Option (List Char))
    (st : Settings) (fn : List Char) (fs : FileSystem) (cwd s : List Char) (mt : RustMatch)
    (hm : rustcRegexMatch s = some mt) :
    (∀ c, (runSelect ff st fn).strategy = .manifestBuild c →
      split_match (runSelect ff st fn) fs cwd fn (some mt) =
        (if is_current_file fs cwd fn (dirname c) mt.file then .result (some mt)
         else .result none))
  ∧ (st.useCargo = false →
      ∀ r, (runSelect ff st fn).strategy = .entryPointBuild r →
      split_match (runSelect ff st fn) fs cwd fn (some mt) =
        (if is_current_file fs cwd fn (dirname r) mt.file then .result (some mt)
         else .result none)) := by
  have hfile := matchFrom_file_not_empty s [] mt hm
  constructor
  · intro c hstrat
    obtain ⟨huc, hcfg⟩ := runSelect_manifest_state ff st fn c hstrat
    simp [split_match, hfile, huc, hcfg]
  · intro hcargo r hstrat
    obtain ⟨huc, hucr, hroot⟩ := runSelect_entry_state ff st fn r hcargo hstrat
    simp [split_match, hfile, huc, hucr, hroot]

/-- Witness for C1: under the cargo strategy a diagnostic naming the
edited file goes through the is_current_file verification. -/
theorem split_match_path_filter_witness :
    split_match (runSelect ffBoth stCargoOnly fn0) fsId cwd0 fn0 (some mtSelf) =
      (if is_current_file fsId cwd0 fn0 (dirname "/proj/Cargo.toml".toList) mtSelf.file
       then .result (some mtSelf) else .result none) :=
  (split_match_path_filter ffBoth stCargoOnly fn0 fsId cwd0 line0 mtSelf (by decide)).1
    "/proj/Cargo.toml".toList (by decide)

/-- Counterexample for C1 as stated: under the single file build with both
flags off, a parsed diagnostic naming a foreign file passes split_match
untouched even though the path comparison would reject it: no defensive
verification happens. -/
theorem single_file_no_defensive_check_cex :
    rustcRegexMatch otherLine = some mtOther
  ∧ (runSelect ffNone stNoFlags fn0).strategy = .singleFileBuild
  ∧ split_match (runSelect ffNone stNoFlags fn0) fsId cwd0 fn0 (some mtOther) =
      .result (some mtOther)
  ∧ is_current_file fsId cwd0 fn0 (dirname fn0) mtOther.file = false := by
  decide

/-- Claim C6 (code bug): with use-cargo set but no manifest anywhere, run
falls back to the single file build while leaving use_cargo true and
cargo_config at None, and split_match then raises TypeError from
os.path.dirname(None) on every parsed match instead of returning. -/
theorem split_match_cargo_fallback_type_error :
    (runSelect ffNone stCargoOnly fn0).use_cargo = true
  ∧ (runSelect ffNone stCargoOnly fn0).cargo_config = none
  ∧ (runSelect ffNone stCargoOnly fn0).strategy = .singleFileBuild
  ∧ rustcRegexMatch line0 = some mtSelf
  ∧ split_match (runSelect ffNone stCargoOnly fn0) fsId cwd0 fn0 (some mtSelf) = .typeError := by
  decide

/-- Witness for C10: an error and a warning naming the same file are both
kept under the cargo strategy state. -/
theorem split_decision_depends_only_on_file_witness :
    outcomeKind (split_match (runSelect ffBoth stBothFlags fn0) fsId cwd0 fn0 (some mtSelf)) =
      outcomeKind (split_match (runSelect ffBoth stBothFlags fn0) fsId cwd0 fn0 (some mtWarnSelf)) :=
  split_decision_depends_only_on_file (runSelect ffBoth stBothFlags fn0) fsId cwd0 fn0
    mtSelf mtWarnSelf rfl

/-! ## Claims C3 and C8: the regex characterization

Soundness and completeness of each step of the matcher, then of the
whole lazy match, against the declarative DiagShape decomposition. -/

theorem digit_not_space {x : Char} (h : isDigit x = true) : isSpace x = false := by
  unfold isDigit at h
  unfold isSpace
  simp only [decide_eq_true_eq] at h
  simp only [decide_eq_false_iff_not]
  omega

theorem space_not_digit {x : Char} (h : isSpace x = true) : isDigit x = false := by
  unfold isSpace at h
  unfold isDigit
  simp only [decide_eq_true_eq] at h
  simp only [decide_eq_false_iff_not]
  omega

theorem takeWhile_append_all (p : Char → Bool) :
    ∀ (t rest : List Char), (∀ x ∈ t, p x = true) →
      (t ++ rest).takeWhile p = t ++ rest.takeWhile p := by
  intro t
  induction t with
  | nil => intro rest h; rfl
  | cons a t2 ih =>
    intro rest h
    have ha : p a = true := h a (by simp)
    simp only [List.cons_append, List.takeWhile_cons, ha, if_true]
    rw [ih rest (fun x hx => h x (by simp [hx]))]

theorem dropWhile_append_all (p : Char → Bool) :
    ∀ (t rest : List Char), (∀ x ∈ t, p x = true) →
      (t ++ rest).dropWhile p = rest.dropWhile p := by
  intro t
  induction t with
  | nil => intro rest h; rfl
  | cons a t2 ih =>
    intro rest h
    have ha : p a = true := h a (by simp)
    simp only [List.cons_append, List.dropWhile_cons, ha, if_true]
    exact ih rest (fun x hx => h x (by simp [hx]))

theorem takeWhile_all_of (p : Char → Bool) :
    ∀ (l : List Char), (∀ x ∈ l, p x = true) → l.takeWhile p = l := by
  intro l
  induction l with
  | nil => intro h; rfl
  | cons a t ih =>
    intro h
    simp only [List.takeWhile_cons, h a (by simp), if_true]
    rw [ih (fun x hx => h x (by simp [hx]))]

theorem takeRun_sound {p : Char → Bool} {r : List Char} {pr : List Char × List Char}
    (h : takeRun p r = some pr) :
    r = pr.1 ++ pr.2 ∧ pr.1 ≠ [] ∧ (∀ x ∈ pr.1, p x = true) := by
  unfold takeRun at h
  by_cases he : (r.takeWhile p).isEmpty = true
  · rw [if_pos he] at h
    exact Option.noConfusion h
  · rw [if_neg he] at h
    have h2 := Option.some.inj h
    have ht : r.takeWhile p = pr.1 := congrArg Prod.fst h2
    have hd : r.dropWhile p = pr.2 := congrArg Prod.snd h2
    refine ⟨?_, ?_, ?_⟩
    · rw [← ht, ← hd, List.takeWhile_append_dropWhile]
    · intro hnil
      apply he
      rw [ht, hnil]
      rfl
    · intro x hx
      exact List.mem_takeWhile_imp (p := p) (l := r) (by rw [ht]; exact hx)

theorem takeRun_eval {p : Char → Bool} (t : List Char) (c : Char) (rest : List Char)
    (hall : ∀ x ∈ t, p x = true) (hne : t ≠ []) (hc : p c = false) :
    takeRun p (t ++ c :: rest) = some (t, c :: rest) := by
  have h1 : (t ++ c :: rest).takeWhile p = t := by
    rw [takeWhile_append_all p t (c :: rest) hall, List.takeWhile_cons, hc]
    simp
  have h2 : (t ++ c :: rest).dropWhile p = c :: rest := by
    rw [dropWhile_append_all p t (c :: rest) hall, List.dropWhile_cons, hc]
    simp
  have h3 : t.isEmpty = false := by
    cases t with
    | nil => exact absurd rfl hne
    | cons a b => rfl
  unfold takeRun
  rw [h1, h2, h3]
  rfl

theorem expectChar_sound {ch : Char} {r rest : List Char} (h : expectChar ch r = some rest) :
    r = ch :: rest := by
  cases r with
  | nil => exact Option.noConfusion h
  | cons x r2 =>
    simp only [expectChar] at h
    by_cases hx : x = ch
    · rw [if_pos hx] at h
      rw [hx, Option.some.inj h]
    · rw [if_neg hx] at h
      exact Option.noConfusion h

theorem expectChar_eval (ch : Char) (rest : List Char) :
    expectChar ch (ch :: rest) = some rest := by
  simp [expectChar]

theorem expectClass_sound {p : Char → Bool} {r rest : List Char}
    (h : expectClass p r = some rest) : ∃ x, r = x :: rest ∧ p x = true := by
  cases r with
  | nil => exact Option.noConfusion h
  | cons x r2 =>
    simp only [expectClass] at h
    by_cases hx : p x = true
    · rw [if_pos hx] at h
      exact ⟨x, by rw [Option.some.inj h], hx⟩
    · rw [if_neg hx] at h
      exact Option.noConfusion h

theorem expectClass_eval {p : Char → Bool} {x : Char} (rest : List Char) (hx : p x = true) :
    expectClass p (x :: rest) = some rest := by
  simp [expectClass, hx]

theorem sevStep_sound {r : List Char} {g : Option (List Char) × Option (List Char)}
    {rest : List Char} (h : sevStep r = some (g, rest)) :
    ∃ sev, r = sev ++ rest ∧
      ((g = (some errorKw, none) ∧ sev = errorKw) ∨
       (g = (some fatalErrorKw, none) ∧ sev = fatalErrorKw) ∨
       (g = (none, some warningKw) ∧ sev = warningKw)) := by
  unfold sevStep at h
  split_ifs at h with h1 h2 h3
  · have hg := Option.some.inj h
    have hfst : (some errorKw, none) = g := congrArg Prod.fst hg
    have hsnd : List.drop 5 r = rest := congrArg Prod.snd hg
    refine ⟨errorKw, ?_, Or.inl ⟨hfst.symm, rfl⟩⟩
    rw [← hsnd, ← h1]
    exact (List.take_append_drop 5 r).symm
  · have hg := Option.some.inj h
    have hfst : (some fatalErrorKw, none) = g := congrArg Prod.fst hg
    have hsnd : List.drop 11 r = rest := congrArg Prod.snd hg
    refine ⟨fatalErrorKw, ?_, Or.inr (Or.inl ⟨hfst.symm, rfl⟩)⟩
    rw [← hsnd, ← h2]
    exact (List.take_append_drop 11 r).symm
  · have hg := Option.some.inj h
    have hfst : (none, some warningKw) = g := congrArg Prod.fst hg
    have hsnd : List.drop 7 r = rest := congrArg Prod.snd hg
    refine ⟨warningKw, ?_, Or.inr (Or.inr ⟨hfst.symm, rfl⟩)⟩
    rw [← hsnd, ← h3]
    exact (List.take_append_drop 7 r).symm

theorem sevStep_error (rest : List Char) :
    sevStep (errorKw ++ rest) = some ((some errorKw, none), rest) := by
  unfold sevStep
  rw [List.take_left' (by decide : errorKw.length = 5),
      List.drop_left' (by decide : errorKw.length = 5)]
  simp

theorem sevStep_fatal (rest : List Char) :
    sevStep (fatalErrorKw ++ rest) = some ((some fatalErrorKw, none), rest) := by
  unfold sevStep
  have h5 : (fatalErrorKw ++ rest).take 5 ≠ errorKw := by
    rw [List.take_append_eq_append_take,
        show (5 : Nat) - fatalErrorKw.length = 0 from by decide, List.take_zero,
        List.append_nil]
    decide
  rw [if_neg h5, List.take_left' (by decide : fatalErrorKw.length = 11),
      List.drop_left' (by decide : fatalErrorKw.length = 11)]
  simp

theorem sevStep_warning (rest : List Char) :
    sevStep (warningKw ++ rest) = some ((none, some warningKw), rest) := by
  unfold sevStep
  have h5 : (warningKw ++ rest).take 5 ≠ errorKw := by
    rw [List.take_append_eq_append_take,
        show (5 : Nat) - warningKw.length = 0 from by decide, List.take_zero,
        List.append_nil]
    decide
  have h11 : (warningKw ++ rest).take 11 ≠ fatalErrorKw := by
    rw [List.take_append_eq_append_take,
        List.take_of_length_le (by decide : warningKw.length ≤ 11)]
    intro hcontr
    rw [show warningKw = 'w' :: "arning".toList from by decide, List.cons_append] at hcontr
    rw [show fatalErrorKw = 'f' :: "atal error".toList from by decide] at hcontr
    injection hcontr with hc1 hc2
    exact absurd hc1 (by decide)
  rw [if_neg h5, if_neg h11, List.take_left' (by decide : warningKw.length = 7),
      List.drop_left' (by decide : warningKw.length = 7)]
  simp

theorem take_le_takeWhile_all (p : Char → Bool) (r : List Char) (k : Nat)
    (hk : k ≤ (r.takeWhile p).length) : ∀ x ∈ r.take k, p x = true := by
  intro x hx
  have h1 : r.take k = (r.takeWhile p).take k := by
    conv_lhs => rw [← List.takeWhile_append_dropWhile p r]
    rw [List.take_append_eq_append_take, Nat.sub_eq_zero_of_le hk, List.take_zero,
        List.append_nil]
  rw [h1] at hx
  exact List.mem_takeWhile_imp (List.take_subset k (r.takeWhile p) hx)

theorem msgFrom_sound : ∀ (k : Nat) (r m : List Char),
    (∀ x ∈ r, x ≠ '\n') → k ≤ (r.takeWhile isSpace).length → msgFrom k r = some m →
    ∃ w, r = w ++ m ∧ w ≠ [] ∧ (∀ x ∈ w, isSpace x = true) ∧ m ≠ [] := by
  intro k
  induction k with
  | zero =>
    intro r m hnl hk h
    exact Option.noConfusion h
  | succ k ih =>
    intro r m hnl hk h
    simp only [msgFrom] at h
    cases hd : r.drop (k + 1) with
    | nil =>
      rw [hd] at h
      exact ih r m hnl (Nat.le_of_succ_le hk) h
    | cons c t =>
      rw [hd] at h
      have hcr : c ∈ r := by
        have hcd : c ∈ r.drop (k + 1) := by rw [hd]; exact List.mem_cons_self c t
        exact List.mem_of_mem_drop hcd
      have hc : ¬ c = '\n' := hnl c hcr
      change (if c = '\n' then msgFrom k r
        else some (List.takeWhile notNL (c :: t))) = some m at h
      rw [if_neg hc] at h
      have hall : ∀ x ∈ c :: t, notNL x = true := by
        intro x hx
        have hxr : x ≠ '\n' := by
          apply hnl x
          apply List.mem_of_mem_drop (n := k + 1)
          rw [hd]
          exact hx
        simp [notNL, hxr]
      have hmd : m = c :: t := by
        rw [← Option.some.inj h, takeWhile_all_of notNL (c :: t) hall]
      refine ⟨r.take (k + 1), ?_, ?_, ?_, ?_⟩
      · rw [hmd, ← hd, List.take_append_drop]
      · have hlen : r.length ≥ k + 2 := by
          have h2 := congrArg List.length hd
          rw [List.length_drop] at h2
          simp only [List.length_cons] at h2
          omega
        have h3 : (r.take (k + 1)).length = k + 1 := by
          rw [List.length_take]
          omega
        intro hnil
        rw [hnil] at h3
        simp at h3
      · exact take_le_takeWhile_all isSpace r (k + 1) hk
      · rw [hmd]
        exact List.cons_ne_nil c t

theorem msgStep_sound {r m : List Char} (hnl : ∀ x ∈ r, x ≠ '\n')
    (h : msgStep r = some m) :
    ∃ w, r = w ++ m ∧ w ≠ [] ∧ (∀ x ∈ w, isSpace x = true) ∧ m ≠ [] :=
  msgFrom_sound _ r m hnl (le_refl _) h

theorem msgFrom_isSome : ∀ (k : Nat) (r : List Char),
    (∃ j c t, 1 ≤ j ∧ j ≤ k ∧ r.drop j = c :: t ∧ c ≠ '\n') →
    (msgFrom k r).isSome = true := by
  intro k
  induction k with
  | zero =>
    rintro r ⟨j, c, t, hj1, hj2, hd, hc⟩
    omega
  | succ k ih =>
    rintro r ⟨j, c, t, hj1, hj2, hd, hc⟩
    simp only [msgFrom]
    by_cases hjk : j = k + 1
    · subst hjk
      rw [hd]
      show (if c = '\n' then msgFrom k r
        else some (List.takeWhile notNL (c :: t))).isSome = true
      rw [if_neg hc]
      rfl
    · have hj2b : j ≤ k := by omega
      cases hd2 : r.drop (k + 1) with
      | nil => exact ih r ⟨j, c, t, hj1, hj2b, hd, hc⟩
      | cons c2 t2 =>
        show (if c2 = '\n' then msgFrom k r
          else some (List.takeWhile notNL (c2 :: t2))).isSome = true
        by_cases hc2 : c2 = '\n'
        · rw [if_pos hc2]
          exact ih r ⟨j, c, t, hj1, hj2b, hd, hc⟩
        · rw [if_neg hc2]
          rfl

theorem msgStep_complete (w m : List Char) (hw : w ≠ []) (hall : ∀ x ∈ w, isSpace x = true)
    (hm : m ≠ []) (hnlm : ∀ x ∈ m, x ≠ '\n') :
    (msgStep (w ++ m)).isSome = true := by
  obtain ⟨c, t, rfl⟩ : ∃ c t, m = c :: t := by
    cases m with
    | nil => exact absurd rfl hm
    | cons a b => exact ⟨a, b, rfl⟩
  unfold msgStep
  apply msgFrom_isSome
  refine ⟨w.length, c, t, ?_, ?_, List.drop_left w (c :: t), hnlm c (by simp)⟩
  · have h0 : 0 < w.length := List.length_pos.mpr hw
    omega
  · rw [takeWhile_append_all isSpace w (c :: t) hall, List.length_append]
    omega

theorem mem_append_cons_right {x ch : Char} {post : List Char} (pre : List Char)
    (hx : x ∈ post) : x ∈ pre ++ ch :: post :=
  List.mem_append_right pre (List.mem_cons_of_mem ch hx)

theorem parseRest_core_sound {r0 : List Char} {cap : RestCap} (h : parseRest r0 = some cap) :
    ∃ ws1 el ec wc sev r11,
      r0 = cap.lineG ++ ':' :: (cap.colG ++ ':' :: (ws1 ++ (el ++ ':' ::
        (ec ++ wc :: (sev ++ ':' :: r11))))) ∧
      cap.lineG ≠ [] ∧ (∀ x ∈ cap.lineG, isDigit x = true) ∧
      cap.colG ≠ [] ∧ (∀ x ∈ cap.colG, isDigit x = true) ∧
      ws1 ≠ [] ∧ (∀ x ∈ ws1, isSpace x = true) ∧
      el ≠ [] ∧ (∀ x ∈ el, isDigit x = true) ∧
      ec ≠ [] ∧ (∀ x ∈ ec, isDigit x = true) ∧
      isSpace wc = true ∧
      msgStep r11 = some cap.msg ∧
      ((cap.errG = some sev ∧ cap.warnG = none ∧ (sev = errorKw ∨ sev = fatalErrorKw)) ∨
       (cap.errG = none ∧ cap.warnG = some sev ∧ sev = warningKw)) := by
  unfold parseRest at h
  rw [Option.bind_eq_some] at h
  obtain ⟨pl, hpl, h⟩ := h
  rw [Option.bind_eq_some] at h
  obtain ⟨r2, hr2, h⟩ := h
  rw [Option.bind_eq_some] at h
  obtain ⟨pc, hpc, h⟩ := h
  rw [Option.bind_eq_some] at h
  obtain ⟨r4, hr4, h⟩ := h
  rw [Option.bind_eq_some] at h
  obtain ⟨pw, hpw, h⟩ := h
  rw [Option.bind_eq_some] at h
  obtain ⟨pe, hpe, h⟩ := h
  rw [Option.bind_eq_some] at h
  obtain ⟨r7, hr7, h⟩ := h
  rw [Option.bind_eq_some] at h
  obtain ⟨pf, hpf, h⟩ := h
  rw [Option.bind_eq_some] at h
  obtain ⟨r9, hr9, h⟩ := h
  rw [Option.bind_eq_some] at h
  obtain ⟨ps, hps, h⟩ := h
  rw [Option.bind_eq_some] at h
  obtain ⟨r11, hr11, h⟩ := h
  rw [Option.map_eq_some'] at h
  obtain ⟨msgv, hmsg, hcap⟩ := h
  subst hcap
  obtain ⟨hq1, hne1, hd1⟩ := takeRun_sound hpl
  have hc1 := expectChar_sound hr2
  obtain ⟨hq3, hne3, hd3⟩ := takeRun_sound hpc
  have hc2 := expectChar_sound hr4
  obtain ⟨hq5, hne5, hs5⟩ := takeRun_sound hpw
  obtain ⟨hq6, hne6, hd6⟩ := takeRun_sound hpe
  have hc3 := expectChar_sound hr7
  obtain ⟨hq8, hne8, hd8⟩ := takeRun_sound hpf
  obtain ⟨wc, hwceq, hwcs⟩ := expectClass_sound hr9
  obtain ⟨sev, hsevr, hsevg⟩ := sevStep_sound hps
  have hc4 := expectChar_sound hr11
  refine ⟨pw.1, pe.1, pf.1, wc, sev, r11, ?_, hne1, hd1, hne3, hd3, hne5, hs5,
    hne6, hd6, hne8, hd8, hwcs, hmsg, ?_⟩
  · show r0 = pl.1 ++ ':' :: (pc.1 ++ ':' :: (pw.1 ++ (pe.1 ++ ':' ::
      (pf.1 ++ wc :: (sev ++ ':' :: r11)))))
    rw [hq1, hc1, hq3, hc2, hq5, hq6, hc3, hq8, hwceq, hsevr, hc4]
  · rcases hsevg with ⟨hg, hs⟩ | ⟨hg, hs⟩ | ⟨hg, hs⟩
    · left
      exact ⟨by simp [show RestCap.errG ⟨pl.1, pc.1, ps.1.1, ps.1.2, msgv⟩ = ps.1.1 from rfl,
          hg, hs], by simp [show RestCap.warnG ⟨pl.1, pc.1, ps.1.1, ps.1.2, msgv⟩ = ps.1.2
          from rfl, hg], Or.inl hs⟩
    · left
      exact ⟨by simp [show RestCap.errG ⟨pl.1, pc.1, ps.1.1, ps.1.2, msgv⟩ = ps.1.1 from rfl,
          hg, hs], by simp [show RestCap.warnG ⟨pl.1, pc.1, ps.1.1, ps.1.2, msgv⟩ = ps.1.2
          from rfl, hg], Or.inr hs⟩
    · right
      exact ⟨by simp [show RestCap.errG ⟨pl.1, pc.1, ps.1.1, ps.1.2, msgv⟩ = ps.1.1 from rfl,
          hg], by simp [show RestCap.warnG ⟨pl.1, pc.1, ps.1.1, ps.1.2, msgv⟩ = ps.1.2
          from rfl, hg, hs], hs⟩

theorem parseRest_sound {r0 : List Char} {cap : RestCap}
    (hnl : ∀ x ∈ r0, x ≠ '\n') (h : parseRest r0 = some cap) :
    ∃ ws1 el ec wc sev ws2,
      r0 = cap.lineG ++ ':' :: (cap.colG ++ ':' :: (ws1 ++ (el ++ ':' ::
        (ec ++ wc :: (sev ++ ':' :: (ws2 ++ cap.msg)))))) ∧
      cap.lineG ≠ [] ∧ (∀ x ∈ cap.lineG, isDigit x = true) ∧
      cap.colG ≠ [] ∧ (∀ x ∈ cap.colG, isDigit x = true) ∧
      ws1 ≠ [] ∧ (∀ x ∈ ws1, isSpace x = true) ∧
      el ≠ [] ∧ (∀ x ∈ el, isDigit x = true) ∧
      ec ≠ [] ∧ (∀ x ∈ ec, isDigit x = true) ∧
      isSpace wc = true ∧
      ws2 ≠ [] ∧ (∀ x ∈ ws2, isSpace x = true) ∧ cap.msg ≠ [] ∧
      ((cap.errG = some sev ∧ cap.warnG = none ∧ (sev = errorKw ∨ sev = fatalErrorKw)) ∨
       (cap.errG = none ∧ cap.warnG = some sev ∧ sev = warningKw)) := by
  obtain ⟨ws1, el, ec, wc, sev, r11, heq, h1, h2, h3, h4, h5, h6, h7, h8, h9, h10, h11,
    hmsg, hsev⟩ := parseRest_core_sound h
  have hnl11 : ∀ x ∈ r11, x ≠ '\n' := by
    intro x hx
    apply hnl x
    rw [heq]
    exact mem_append_cons_right _ (mem_append_cons_right _ (List.mem_append_right ws1
      (mem_append_cons_right _ (mem_append_cons_right _ (mem_append_cons_right _ hx)))))
  obtain ⟨ws2, hr11eq, hws2ne, hws2s, hmsgne⟩ := msgStep_sound hnl11 hmsg
  exact ⟨ws1, el, ec, wc, sev, ws2, by rw [heq, hr11eq], h1, h2, h3, h4, h5, h6, h7, h8,
    h9, h10, h11, hws2ne, hws2s, hmsgne, hsev⟩

theorem parseRest_complete (l c ws1 el ec : List Char) (wc : Char) (sev ws2 msg : List Char)
    (hl : l ≠ []) (hld : ∀ x ∈ l, isDigit x = true)
    (hc : c ≠ []) (hcd : ∀ x ∈ c, isDigit x = true)
    (hws1 : ws1 ≠ []) (hws1s : ∀ x ∈ ws1, isSpace x = true)
    (hel : el ≠ []) (held : ∀ x ∈ el, isDigit x = true)
    (hec : ec ≠ []) (hecd : ∀ x ∈ ec, isDigit x = true)
    (hwc : isSpace wc = true)
    (hsev : sev = errorKw ∨ sev = fatalErrorKw ∨ sev = warningKw)
    (hws2 : ws2 ≠ []) (hws2s : ∀ x ∈ ws2, isSpace x = true)
    (hmsg : msg ≠ []) (hnlm : ∀ x ∈ msg, x ≠ '\n') :
    (parseRest (l ++ ':' :: (c ++ ':' :: (ws1 ++ (el ++ ':' ::
      (ec ++ wc :: (sev ++ ':' :: (ws2 ++ msg)))))))).isSome = true := by
  obtain ⟨e0, el2, rfl⟩ : ∃ e0 el2, el = e0 :: el2 := by
    cases el with
    | nil => exact absurd rfl hel
    | cons a b => exact ⟨a, b, rfl⟩
  unfold parseRest
  rw [takeRun_eval l ':' _ hld hl (by decide)]
  simp only [Option.some_bind]
  rw [expectChar_eval]
  simp only [Option.some_bind]
  rw [takeRun_eval c ':' _ hcd hc (by decide)]
  simp only [Option.some_bind]
  rw [expectChar_eval]
  simp only [Option.some_bind]
  rw [List.cons_append]
  rw [takeRun_eval ws1 e0 _ hws1s hws1 (digit_not_space (held e0 (by simp)))]
  simp only [Option.some_bind]
  rw [← List.cons_append]
  rw [takeRun_eval (e0 :: el2) ':' _ held hel (by decide)]
  simp only [Option.some_bind]
  rw [expectChar_eval]
  simp only [Option.some_bind]
  rw [takeRun_eval ec wc _ hecd hec (space_not_digit hwc)]
  simp only [Option.some_bind]
  rw [expectClass_eval _ hwc]
  simp only [Option.some_bind]
  rcases hsev with rfl | rfl | rfl
  · rw [sevStep_error]
    simp only [Option.some_bind]
    rw [expectChar_eval]
    simp only [Option.some_bind]
    cases hms : msgStep (ws2 ++ msg) with
    | none =>
      have hcomp := msgStep_complete ws2 msg hws2 hws2s hmsg hnlm
      rw [hms] at hcomp
      simp at hcomp
    | some mv =>
      rfl
  · rw [sevStep_fatal]
    simp only [Option.some_bind]
    rw [expectChar_eval]
    simp only [Option.some_bind]
    cases hms : msgStep (ws2 ++ msg) with
    | none =>
      have hcomp := msgStep_complete ws2 msg hws2 hws2s hmsg hnlm
      rw [hms] at hcomp
      simp at hcomp
    | some mv =>
      rfl
  · rw [sevStep_warning]
    simp only [Option.some_bind]
    rw [expectChar_eval]
    simp only [Option.some_bind]
    cases hms : msgStep (ws2 ++ msg) with
    | none =>
      have hcomp := msgStep_complete ws2 msg hws2 hws2s hmsg hnlm
      rw [hms] at hcomp
      simp at hcomp
    | some mv =>
      rfl

theorem tryHere_sound {rest : List Char} {cap : RestCap} (h : tryHere rest = some cap) :
    ∃ r2, rest = ':' :: r2 ∧ parseRest r2 = some cap := by
  cases rest with
  | nil => exact Option.noConfusion h
  | cons x r2 =>
    simp only [tryHere] at h
    by_cases hx : x = ':'
    · rw [if_pos hx] at h
      exact ⟨r2, by rw [hx], h⟩
    · rw [if_neg hx] at h
      exact Option.noConfusion h

theorem matchFrom_sound : ∀ (r acc : List Char) (m : RustMatch), matchFrom acc r = some m →
    ∃ f2 r2 cap, r = f2 ++ ':' :: r2 ∧ f2 ≠ [] ∧ (∀ x ∈ f2, x ≠ '\n') ∧
      parseRest r2 = some cap ∧
      m = ⟨acc.reverse ++ f2, cap.lineG, cap.colG, cap.errG, cap.warnG, cap.msg⟩ := by
  intro r
  induction r with
  | nil =>
    intro acc m h
    exact Option.noConfusion h
  | cons ch rest ih =>
    intro acc m h
    simp only [matchFrom] at h
    by_cases hnl : ch = '\n'
    · rw [if_pos hnl] at h
      exact Option.noConfusion h
    · rw [if_neg hnl] at h
      cases htry : tryHere rest with
      | some cap =>
        rw [htry] at h
        obtain ⟨r2, hrest, hpr⟩ := tryHere_sound htry
        refine ⟨[ch], r2, cap, ?_, by simp, ?_, hpr, ?_⟩
        · rw [hrest]
          rfl
        · intro x hx
          rw [List.mem_singleton] at hx
          rw [hx]
          exact hnl
        · rw [← Option.some.inj h]
          simp [List.reverse_cons]
      | none =>
        rw [htry] at h
        obtain ⟨f2, r2, cap, heq, hne, hnl2, hpr, hm⟩ := ih (ch :: acc) m h
        refine ⟨ch :: f2, r2, cap, ?_, by simp, ?_, hpr, ?_⟩
        · rw [List.cons_append, ← heq]
        · intro x hx
          rcases List.mem_cons.mp hx with hx1 | hx2
          · rw [hx1]
            exact hnl
          · exact hnl2 x hx2
        · rw [hm]
          simp [List.reverse_cons, List.append_assoc]

theorem matchFrom_complete : ∀ (f2 : List Char), f2 ≠ [] → (∀ x ∈ f2, x ≠ '\n') →
    ∀ (r2 acc : List Char), (parseRest r2).isSome = true →
    (matchFrom acc (f2 ++ ':' :: r2)).isSome = true := by
  intro f2
  induction f2 with
  | nil =>
    intro h
    exact absurd rfl h
  | cons ch f2' ih =>
    intro hne hnl r2 acc hpr
    rw [List.cons_append]
    simp only [matchFrom]
    rw [if_neg (hnl ch (by simp))]
    cases f2' with
    | nil =>
      rw [List.nil_append]
      obtain ⟨cap, hcap⟩ := Option.isSome_iff_exists.mp hpr
      rw [show tryHere (':' :: r2) = parseRest r2 from by simp [tryHere], hcap]
      rfl
    | cons c2 f2'' =>
      cases htry : tryHere (c2 :: f2'' ++ ':' :: r2) with
      | some cap => rfl
      | none =>
        exact ih (by simp) (fun x hx => hnl x (List.mem_cons_of_mem ch hx)) r2 (ch :: acc) hpr

theorem rustcRegexMatch_sound {s : List Char} {m : RustMatch}
    (hnl : ∀ x ∈ s, x ≠ '\n') (h : rustcRegexMatch s = some m) :
    ∃ ws1 el ec wc sev ws2,
      s = m.file ++ ':' :: (m.lineG ++ ':' :: (m.colG ++ ':' :: (ws1 ++ (el ++ ':' ::
        (ec ++ wc :: (sev ++ ':' :: (ws2 ++ m.message))))))) ∧
      m.file ≠ [] ∧
      m.lineG ≠ [] ∧ (∀ x ∈ m.lineG, isDigit x = true) ∧
      m.colG ≠ [] ∧ (∀ x ∈ m.colG, isDigit x = true) ∧
      ws1 ≠ [] ∧ (∀ x ∈ ws1, isSpace x = true) ∧
      el ≠ [] ∧ (∀ x ∈ el, isDigit x = true) ∧
      ec ≠ [] ∧ (∀ x ∈ ec, isDigit x = true) ∧
      isSpace wc = true ∧
      ws2 ≠ [] ∧ (∀ x ∈ ws2, isSpace x = true) ∧ m.message ≠ [] ∧
      ((m.errG = some sev ∧ m.warnG = none ∧ (sev = errorKw ∨ sev = fatalErrorKw)) ∨
       (m.errG = none ∧ m.warnG = some sev ∧ sev = warningKw)) := by
  obtain ⟨f2, r2, cap, heq, hfne, hfnl, hpr, hm⟩ := matchFrom_sound s [] m h
  have hnlr2 : ∀ x ∈ r2, x ≠ '\n' := by
    intro x hx
    apply hnl x
    rw [heq]
    exact mem_append_cons_right f2 hx
  obtain ⟨ws1, el, ec, wc, sev, ws2, heq2, h1, h2, h3, h4, h5, h6, h7, h8, h9, h10,
    h11, h12, h13, h14, hsev⟩ := parseRest_sound hnlr2 hpr
  subst hm
  refine ⟨ws1, el, ec, wc, sev, ws2, ?_, by simpa using hfne, h1, h2, h3, h4, h5, h6,
    h7, h8, h9, h10, h11, h12, h13, h14, hsev⟩
  show s = ([].reverse ++ f2) ++ ':' :: (cap.lineG ++ ':' :: (cap.colG ++ ':' ::
    (ws1 ++ (el ++ ':' :: (ec ++ wc :: (sev ++ ':' :: (ws2 ++ cap.msg)))))))
  rw [heq, heq2]
  simp

theorem rustcRegexMatch_complete {s : List Char} (hnl : ∀ x ∈ s, x ≠ '\n')
    (hs : DiagShape s) : (rustcRegexMatch s).isSome = true := by
  obtain ⟨f, l, c, ws1, el, ec, wc, sev, ws2, msg, heq, hfne, hlne, hld, hcne, hcd,
    hws1ne, hws1s, helne, held, hecne, hecd, hwcs, hsev, hws2ne, hws2s, hmsgne⟩ := hs
  have hnlmsg : ∀ x ∈ msg, x ≠ '\n' := by
    intro x hx
    apply hnl x
    rw [heq]
    exact mem_append_cons_right f (mem_append_cons_right l (mem_append_cons_right c
      (List.mem_append_right ws1 (mem_append_cons_right el
        (mem_append_cons_right ec (mem_append_cons_right sev
          (List.mem_append_right ws2 hx)))))))
  have hfnl : ∀ x ∈ f, x ≠ '\n' := by
    intro x hx
    apply hnl x
    rw [heq]
    exact List.mem_append_left _ hx
  rw [heq]
  exact matchFrom_complete f hfne hfnl _ []
    (parseRest_complete l c ws1 el ec wc sev ws2 msg hlne hld hcne hcd hws1ne hws1s
      helne held hecne hecd hwcs hsev hws2ne hws2s hmsgne hnlmsg)

/-- Claim C3: on a line without newline characters the regex yields a
match exactly when the line has the structural shape path, line, column,
the duplicated end pair, a severity keyword out of error, fatal error and
warning, and a message; the error and fatal error keywords populate the
error group and warning the warning group, with no other class; the
duplicated pair is required but not captured, the first pair giving the
captured position; and a non matching line yields none, never an error. -/
theorem rustc_regex_characterization (s : List Char) (hnl : ∀ x ∈ s, x ≠ '\n') :
    ((rustcRegexMatch s).isSome = true ↔ DiagShape s)
  ∧ (∀ m, rustcRegexMatch s = some m →
      ∃ ws1 el ec wc sev ws2,
        s = m.file ++ ':' :: (m.lineG ++ ':' :: (m.colG ++ ':' :: (ws1 ++ (el ++ ':' ::
          (ec ++ wc :: (sev ++ ':' :: (ws2 ++ m.message))))))) ∧
        el ≠ [] ∧ (∀ x ∈ el, isDigit x = true) ∧
        ec ≠ [] ∧ (∀ x ∈ ec, isDigit x = true) ∧
        ((m.errG = some sev ∧ m.warnG = none ∧ (sev = errorKw ∨ sev = fatalErrorKw)) ∨
         (m.errG = none ∧ m.warnG = some sev ∧ sev = warningKw))) := by
  constructor
  · constructor
    · intro hsome
      obtain ⟨m, hm⟩ := Option.isSome_iff_exists.mp hsome
      obtain ⟨ws1, el, ec, wc, sev, ws2, heq, hfne, h1, h2, h3, h4, h5, h6, h7, h8,
        h9, h10, h11, h12, h13, h14, hsev⟩ := rustcRegexMatch_sound hnl hm
      refine ⟨m.file, m.lineG, m.colG, ws1, el, ec, wc, sev, ws2, m.message, heq, hfne,
        h1, h2, h3, h4, h5, h6, h7, h8, h9, h10, h11, ?_, h12, h13, h14⟩
      rcases hsev with ⟨_, _, hse⟩ | ⟨_, _, hse⟩
      · rcases hse with hse | hse
        · exact Or.inl hse
        · exact Or.inr (Or.inl hse)
      · exact Or.inr (Or.inr hse)
    · exact rustcRegexMatch_complete hnl
  · intro m hm
    obtain ⟨ws1, el, ec, wc, sev, ws2, heq, hfne, h1, h2, h3, h4, h5, h6, h7, h8,
      h9, h10, h11, h12, h13, h14, hsev⟩ := rustcRegexMatch_sound hnl hm
    exact ⟨ws1, el, ec, wc, sev, ws2, heq, h7, h8, h9, h10, hsev⟩

/-- Witness for C3: scenario A of the spec has the shape, derived by
applying the characterization to the computed match. -/
theorem rustc_regex_characterization_witness : DiagShape line0 :=
  ((rustc_regex_characterization line0 (by decide)).1).mp (by decide)

/-- Claim C8 (amended): every diagnostic the regex yields carries nonempty
digit strings as its line and column captures, hence natural number
positions; non numeric text in those positions fails the match, so the
line is skipped and the pass continues. The captured value can be zero,
so it is not always positive: see the counterexample. -/
theorem captures_are_digit_strings (s : List Char) (m : RustMatch)
    (h : rustcRegexMatch s = some m) :
    m.lineG ≠ [] ∧ (∀ x ∈ m.lineG, isDigit x = true) ∧
    m.colG ≠ [] ∧ (∀ x ∈ m.colG, isDigit x = true) := by
  obtain ⟨f2, r2, cap, heq, hfne, hfnl, hpr, hm⟩ := matchFrom_sound s [] m h
  obtain ⟨ws1, el, ec, wc, sev, r11, heq2, h1, h2, h3, h4, _⟩ := parseRest_core_sound hpr
  subst hm
  exact ⟨h1, h2, h3, h4⟩

/-- Witness for C8: the line capture of scenario A is a nonempty digit
string. -/
theorem captures_are_digit_strings_witness : mtSelf.lineG ≠ [] :=
  (captures_are_digit_strings line0 mtSelf (by decide)).1

/-- Counterexample for C8 as stated: a line whose positions are zero
matches, and the captured line value is 0, which is not positive. -/
theorem line_zero_not_positive_cex :
    ¬ (∀ m : RustMatch, rustcRegexMatch zeroLine = some m → 0 < digitsToNat m.lineG) := by
  intro h
  have h2 := h ⟨"x.rs".toList, "0".toList, "0".toList, some errorKw, none, "m".toList⟩
    (by decide)
  exact absurd h2 (by decide)

end RustcLint
